import Mathlib

/-!
Verification of the morty sanitizing web proxy (friedemannsommer/morty).

This file is a shallow embedding of the URI/CSS/HTML sanitizing pipeline of
morty.go and of ContentType.Equals from the contenttype package, together
with theorems settling the stated claims about them.

Modelling conventions:
  * A Go byte slice (and a Go string, which is a byte sequence) is modelled
    as a value of type List Nat, every element standing for one byte.  All
    string literals used in the development are ASCII, so the byte list of
    a literal is obtained by mapping Char.toNat over its characters.
  * External collaborators that are not part of this repository
    (net/url parsing and reference resolution, the html tokenizer and
    html.EscapeString, regexp matching, html/template rendering and the
    HMAC-SHA256 compression itself) are bundled in a structure Ext of
    function parameters; every theorem quantifies over all such bundles,
    so it holds in particular for the real Go implementations.
  * Fallible Go calls (value, err) are modelled with Option: some v is a
    nil error with result v, none is a non-nil error.
-/

namespace Morty

/-- Bytes of an ASCII string literal (one Nat per character). -/
def strBytes (s : String) : List Nat :=
  s.data.map Char.toNat

/-- Go bytes.Equal based membership test, from morty.go inArray. -/
def inArray (b : List Nat) (a : List (List Nat)) : Bool :=
  a.any (fun b2 => b2 == b)

/-- morty.go: tokenizer state constant StateDefault. -/
def StateDefault : Nat := 0

/-- morty.go: tokenizer state constant StateInStyle. -/
def StateInStyle : Nat := 1

/-- morty.go: tokenizer state constant StateInNoscript. -/
def StateInNoscript : Nat := 2

/-- morty.go: const MaxRedirectCount = 5. -/
def MaxRedirectCount : Nat := 5

/-! ## sanitizeURI (morty.go lines 874-922) -/

/-- The byte-wise lower-casing done inside sanitizeURI:
if c < utf8.RuneSelf and A <= c <= Z then c = c + a - A. -/
def lowerByte (c : Nat) : Nat :=
  if 65 ≤ c ∧ c ≤ 90 then c + 32 else c

/-- bytes.TrimRight(uri, "\x00..\x20"): remove trailing bytes that are <= 32. -/
def trimRightSpaces (l : List Nat) : List Nat :=
  (l.reverse.dropWhile (fun c => decide (c ≤ 32))).reverse

/-- State of the byte scanning loop of sanitizeURI. -/
structure ScanSt where
  buffer : List Nat
  firstRuneIndex : Nat
  firstRuneSeen : Bool
  schemeLastIndex : Option Nat
  deriving Repr, DecidableEq

/-- The "loop over byte by byte" of sanitizeURI: skip bytes <= 32, lower-case,
append to the buffer, record the first kept index, stop at a colon
(recording its index) or at one of / ? \ # (relative URI indicators). -/
def scanLoop : List Nat → Nat → ScanSt → ScanSt
  | [], _, st => st
  | c :: rest, i, st =>
    if c ≤ 32 then
      scanLoop rest (i + 1) st
    else
      let c' := lowerByte c
      let buf := st.buffer ++ [c']
      let fri := if st.firstRuneSeen then st.firstRuneIndex else i
      if c' = 58 then
        ⟨buf, fri, true, some i⟩
      else if c' = 47 ∨ c' = 63 ∨ c' = 92 ∨ c' = 35 then
        ⟨buf, fri, true, st.schemeLastIndex⟩
      else
        scanLoop rest (i + 1) ⟨buf, fri, true, st.schemeLastIndex⟩

/-- Go copy(dst, src): overwrite the front of dst with src,
truncated to the length of dst. -/
def goCopy (dst src : List Nat) : List Nat :=
  src.take dst.length ++ dst.drop src.length

/-- sanitizeURI(uri) -> (cleaned bytes, scheme bytes).  Mirrors morty.go:
trim the right, scan, then either copy the lower-cased scheme in place and
return the tail from the scheme start (scheme found), or return the tail
from the first kept byte with an empty scheme.  (Go returns the scheme as
a string; a Go string is a byte sequence, kept here as List Nat.  Go
computes schemeStartIndex with int subtraction; the scanner puts at most
schemeLastIndex + 1 bytes in the buffer - see scanLoop_some - so the Nat
subtraction here agrees with it.) -/
def sanitizeURI (uri0 : List Nat) : List Nat × List Nat :=
  let uri := trimRightSpaces uri0
  let r := scanLoop uri 0 ⟨[], 0, false, none⟩
  match r.schemeLastIndex with
  | some k =>
    let schemeStartIndex := k + 1 - r.buffer.length
    let written := uri.take schemeStartIndex ++ goCopy (uri.drop schemeStartIndex) r.buffer
    (written.drop schemeStartIndex, r.buffer)
  | none => (uri.drop r.firstRuneIndex, [])

/-! ## External collaborators -/

/-- Model of a Go net/url URL value: the fields read or written by morty.
User is the rendered userinfo (User.String()), none standing for a nil
pointer. -/
structure GoURL where
  scheme : List Nat
  user : Option (List Nat)
  host : List Nat
  path : List Nat
  rawQuery : List Nat
  fragment : List Nat
  deriving Repr, DecidableEq

/-- Inductive token model of what golang.org/x/net/html yields to
sanitizeHTML: tag name plus (name, raw value) attribute pairs. -/
inductive HToken where
  | startTag (tag : List Nat) (attrs : List (List Nat × List Nat)) (selfClosing : Bool)
  | endTag (tag : List Nat)
  | text (raw : List Nat)
  | comment (raw : List Nat)
  | doctype (raw : List Nat)
  deriving Repr, DecidableEq

/-- Bundle of the external (non-repository) functions the sanitizer calls.
Every theorem below quantifies over all bundles, hence holds for the real
Go implementations of these collaborators. -/
structure Ext where
  /-- net/url: url.Parse; none models a non-nil error. -/
  urlParse : List Nat → Option GoURL
  /-- net/url: base.ResolveReference(ref). -/
  resolveReference : GoURL → GoURL → GoURL
  /-- net/url: u.String(). -/
  urlString : GoURL → List Nat
  /-- net/url: url.QueryEscape. -/
  queryEscape : List Nat → List Nat
  /-- crypto/hmac with crypto/sha256: HMAC-SHA256(key, message) raw digest. -/
  hmacSha256 : List Nat → List Nat → List Nat
  /-- golang.org/x/net/html: html.EscapeString. -/
  escapeString : List Nat → List Nat
  /-- regexp: CssUrlRegexp.FindAllSubmatchIndex, reduced to the pairs
  (s[4], s[5]) delimiting submatch group 2 (the URL) of each match. -/
  cssMatches : List Nat → List (Nat × Nat)
  /-- golang.org/x/net/html: the tokenizer applied to a byte stream. -/
  tokenize : List Nat → List HToken
  /-- html/template: HtmlFormExtension.Execute on (BaseURL, MortyHash). -/
  renderFormExt : List Nat → List Nat → List Nat
  /-- html/template: HtmlBodyExtension.Execute on (BaseURL, HasMortyKey). -/
  renderBodyExt : List Nat → Bool → List Nat

/-! ## hash and verifyRequestURI (morty.go lines 995-1013) -/

/-- encoding/hex: the lower-case digit for a nibble. -/
def hexDigitLower (n : Nat) : Nat :=
  if n < 10 then 48 + n else 87 + n

/-- encoding/hex: EncodeToString, two lower-case digits per byte. -/
def hexEncode (l : List Nat) : List Nat :=
  l.flatMap (fun b => [hexDigitLower (b / 16), hexDigitLower (b % 16)])

/-- encoding/hex: value of one hex digit character, none if invalid. -/
def fromHexChar (c : Nat) : Option Nat :=
  if 48 ≤ c ∧ c ≤ 57 then some (c - 48)
  else if 97 ≤ c ∧ c ≤ 102 then some (c - 97 + 10)
  else if 65 ≤ c ∧ c ≤ 70 then some (c - 65 + 10)
  else none

/-- encoding/hex: Decode; none on an odd length or an invalid digit
(morty discards the partial output in either case). -/
def hexDecode : List Nat → Option (List Nat)
  | [] => some []
  | [_] => none
  | p :: q :: rest =>
    match fromHexChar p, fromHexChar q, hexDecode rest with
    | some a, some b, some r => some ((a * 16 + b) :: r)
    | _, _, _ => none

/-- morty.go hash(msg, key): lower-case hex of HMAC-SHA256(key, msg). -/
def hash (ext : Ext) (msg key : List Nat) : List Nat :=
  hexEncode (ext.hmacSha256 key msg)

/-- morty.go verifyRequestURI: hex-decode the hash message and compare it
with HMAC-SHA256(key, uri); hmac.Equal is constant-time byte equality. -/
def verifyRequestURI (ext : Ext) (uri hashMsg key : List Nat) : Bool :=
  match hexDecode hashMsg with
  | none => false
  | some h => h == ext.hmacSha256 key uri

/-! ## ProxifyURI (morty.go lines 924-984) -/

/-- morty.go mergeURIs(u1, u2): u1 when u2 is nil, else resolution. -/
def mergeURIs (ext : Ext) (u1 : GoURL) (u2 : Option GoURL) : GoURL :=
  match u2 with
  | none => u1
  | some u => ext.resolveReference u1 u

/-- The data: URI allow list test of ProxifyURI (bytes.HasPrefix checks). -/
def dataAllowed (uri : List Nat) : Bool :=
  (strBytes ("data:image/png")).isPrefixOf uri ||
  (strBytes ("data:image/jpeg")).isPrefixOf uri ||
  (strBytes ("data:image/pjpeg")).isPrefixOf uri ||
  (strBytes ("data:image/gif")).isPrefixOf uri ||
  (strBytes ("data:image/webp")).isPrefixOf uri

/-- The shape claim C1 states for every URL emitted without a key: a
proxy-relative ./?mortyurl= URL, a pure fragment (possibly empty), or an
allowed data:image URI. -/
def mortyShape (out : List Nat) : Prop :=
  (strBytes ("./?mortyurl=")).isPrefixOf out = true ∨ out = [] ∨
    (∃ rest, out = 35 :: rest) ∨ dataAllowed out = true

/-- RequestConfig.ProxifyURI.  key is rc.Key (none = nil).  baseURL is
rc.BaseURL.  Returns none on a url.Parse error, otherwise the emitted
URL bytes. -/
def ProxifyURI (ext : Ext) (key : Option (List Nat)) (baseURL : GoURL)
    (uri0 : List Nat) : Option (List Nat) :=
  let p := sanitizeURI uri0
  let uri := p.1
  let scheme := p.2
  if scheme == strBytes ("javascript:") then some []
  else if scheme == strBytes ("data:") then
    if dataAllowed uri then some uri else some []
  else
    match ext.urlParse uri with
    | none => none
    | some u0 =>
      let fragment := if 0 < u0.fragment.length then 35 :: u0.fragment else []
      let u1 : GoURL := { u0 with fragment := [] }
      let u := mergeURIs ext baseURL (some u1)
      if u.scheme == baseURL.scheme &&
          (baseURL.user == none || (u.user != none && u.user == baseURL.user)) &&
          u.host == baseURL.host &&
          u.path == baseURL.path &&
          u.rawQuery == baseURL.rawQuery then
        some fragment
      else
        let mortyUri := ext.urlString u
        match key with
        | none =>
          some (strBytes ("./?mortyurl=") ++ ext.queryEscape mortyUri ++ fragment)
        | some k =>
          some (strBytes ("./?mortyhash=") ++ hash ext mortyUri k ++
            strBytes ("&mortyurl=") ++ ext.queryEscape mortyUri ++ fragment)

/-! ## sanitizeCSS (morty.go lines 561-586) -/

/-- Go css[a:b]. -/
def slice (l : List Nat) (a b : Nat) : List Nat :=
  (l.drop a).take (b - a)

/-- The rewriting loop of sanitizeCSS over the submatch index pairs,
carrying startIndex; a failed ProxifyURI leaves startIndex untouched and
writes nothing, the final write emits css[startIndex:]. -/
def sanitizeCSSLoop (ext : Ext) (key : Option (List Nat)) (baseURL : GoURL)
    (css : List Nat) : List (Nat × Nat) → Nat → List Nat
  | [], startIndex =>
    if startIndex < css.length then css.drop startIndex else []
  | (urlStart, urlEnd) :: rest, startIndex =>
    match ProxifyURI ext key baseURL (slice css urlStart urlEnd) with
    | some uri =>
      slice css startIndex urlStart ++ uri ++
        sanitizeCSSLoop ext key baseURL css rest urlEnd
    | none => sanitizeCSSLoop ext key baseURL css rest startIndex

/-- morty.go sanitizeCSS: emit css unchanged when the regexp finds nothing,
else run the rewriting loop from startIndex 0. -/
def sanitizeCSS (ext : Ext) (key : Option (List Nat)) (baseURL : GoURL)
    (css : List Nat) : List Nat :=
  match ext.cssMatches css with
  | [] => css
  | ms => sanitizeCSSLoop ext key baseURL css ms 0

/-! ## sanitizeAttr (morty.go lines 846-863) and the attribute lists -/

/-- morty.go var SafeAttributes. -/
def SafeAttributes : List (List Nat) :=
  [strBytes ("abbr"), strBytes ("accesskey"), strBytes ("align"),
   strBytes ("alt"), strBytes ("as"), strBytes ("autocomplete"),
   strBytes ("charset"), strBytes ("checked"), strBytes ("class"),
   strBytes ("content"), strBytes ("contenteditable"),
   strBytes ("contextmenu"), strBytes ("dir"), strBytes ("for"),
   strBytes ("height"), strBytes ("hidden"), strBytes ("hreflang"),
   strBytes ("id"), strBytes ("lang"), strBytes ("media"),
   strBytes ("method"), strBytes ("name"), strBytes ("nowrap"),
   strBytes ("placeholder"), strBytes ("property"), strBytes ("rel"),
   strBytes ("spellcheck"), strBytes ("tabindex"), strBytes ("target"),
   strBytes ("title"), strBytes ("translate"), strBytes ("type"),
   strBytes ("value"), strBytes ("width")]

/-- morty.go var UnsafeElements. -/
def UnsafeElements : List (List Nat) :=
  [strBytes ("applet"), strBytes ("canvas"), strBytes ("embed"),
   strBytes ("iframe"), strBytes ("math"), strBytes ("script"),
   strBytes ("svg")]

/-- morty.go var LinkRelSafeValues. -/
def LinkRelSafeValues : List (List Nat) :=
  [strBytes ("alternate"), strBytes ("archives"), strBytes ("author"),
   strBytes ("copyright"), strBytes ("first"), strBytes ("help"),
   strBytes ("icon"), strBytes ("index"), strBytes ("last"),
   strBytes ("license"), strBytes ("manifest"), strBytes ("next"),
   strBytes ("prev"), strBytes ("publisher"), strBytes ("search"),
   strBytes ("shortcut icon"), strBytes ("stylesheet"), strBytes ("up")]

/-- morty.go var LinkHttpEquivSafeValues. -/
def LinkHttpEquivSafeValues : List (List Nat) :=
  [strBytes ("date"), strBytes ("last-modified"), strBytes ("refresh"),
   strBytes ("content-language")]

/-- morty.go sanitizeAttr, as the byte sequence written to out for one
attribute triple (name, raw value, html-escaped value). -/
def sanitizeAttr (ext : Ext) (key : Option (List Nat)) (baseURL : GoURL)
    (attrName attrValue escapedAttrValue : List Nat) : List Nat :=
  if inArray attrName SafeAttributes then
    strBytes (" ") ++ attrName ++ strBytes ("=\"") ++ escapedAttrValue ++ strBytes ("\"")
  else if attrName == strBytes ("src") || attrName == strBytes ("href") ||
      attrName == strBytes ("action") then
    match ProxifyURI ext key baseURL attrValue with
    | some uri => strBytes (" ") ++ attrName ++ strBytes ("=\"") ++ uri ++ strBytes ("\"")
    | none => []
  else if attrName == strBytes ("style") then
    strBytes (" ") ++ attrName ++ strBytes ("=\"") ++
      ext.escapeString (sanitizeCSS ext key baseURL attrValue) ++ strBytes ("\"")
  else []

/-! ## sanitizeHTML (morty.go lines 588-763) and its helpers -/

/-- morty.go var HtmlHeadContentType, injected after an opening head tag. -/
def HtmlHeadContentType : String :=
  "<meta http-equiv=\"Content-Type\" content=\"text/html; charset=utf-8\">\n<meta http-equiv=\"X-UA-Compatible\" content=\"IE=edge\">\n<meta name=\"referrer\" content=\"no-referrer\">\n"

/-- bytes.ToLower restricted to ASCII bytes (all values morty compares the
result with are ASCII). -/
def bytesToLower (l : List Nat) : List Nat :=
  l.map lowerByte

/-- bytes.Index: index of the first occurrence of n in h, none if absent. -/
def bytesIndexOf : List Nat → List Nat → Option Nat
  | h, n =>
    if n.isPrefixOf h then some 0
    else
      match h with
      | [] => none
      | _ :: t => (bytesIndexOf t n).map (· + 1)

/-- morty.go sanitizeAttrs: concatenation of sanitizeAttr over the
(name, value, escaped) triples. -/
def sanitizeAttrs (ext : Ext) (key : Option (List Nat)) (baseURL : GoURL)
    (attrs : List (List Nat × List Nat × List Nat)) : List Nat :=
  attrs.foldl
    (fun acc a => acc ++ sanitizeAttr ext key baseURL a.1 a.2.1 a.2.2) []

/-- morty.go sanitizeLinkTag: drop the whole tag when a rel value is not
white-listed or when as=script, else emit link with sanitized attributes. -/
def sanitizeLinkTag (ext : Ext) (key : Option (List Nat)) (baseURL : GoURL)
    (attrs : List (List Nat × List Nat × List Nat)) : List Nat :=
  let exclude := attrs.any (fun a =>
    (a.1 == strBytes ("rel") && !(inArray a.2.1 LinkRelSafeValues)) ||
    (a.1 == strBytes ("as") && a.2.1 == strBytes ("script")))
  if exclude then []
  else
    strBytes ("<link") ++ sanitizeAttrs ext key baseURL attrs ++ strBytes (">")

/-- The attribute loop of sanitizeMetaTag: collects (httpEquiv, content),
none when the tag is dropped (non-white-listed http-equiv, or a charset
attribute). -/
def metaScan : List (List Nat × List Nat × List Nat) → List Nat → List Nat →
    Option (List Nat × List Nat)
  | [], httpEquiv, content => some (httpEquiv, content)
  | a :: rest, httpEquiv, content =>
    if a.1 == strBytes ("http-equiv") then
      let he := bytesToLower a.2.1
      if inArray he LinkHttpEquivSafeValues then metaScan rest he content
      else none
    else if a.1 == strBytes ("content") then metaScan rest httpEquiv a.2.1
    else if a.1 == strBytes ("charset") then none
    else metaScan rest httpEquiv content

/-- The URL bytes sanitizeMetaTag extracts after url= in a refresh
content value, stripping one pair of matching surrounding quotes. -/
def metaContentUrl (content : List Nat) (i : Nat) : List Nat :=
  let contentUrl := content.drop (i + 4)
  if 2 ≤ contentUrl.length &&
      (contentUrl.head? == some 39 || contentUrl.head? == some 34) &&
      contentUrl.head? == contentUrl.getLast? then
    (contentUrl.drop 1).dropLast
  else contentUrl

/-- morty.go sanitizeMetaTag: the refresh URL rewrite (with optional quote
stripping), or http-equiv plus sanitized attributes. -/
def sanitizeMetaTag (ext : Ext) (key : Option (List Nat)) (baseURL : GoURL)
    (attrs : List (List Nat × List Nat × List Nat)) : List Nat :=
  match metaScan attrs [] [] with
  | none => []
  | some (httpEquiv, content) =>
    let urlIndex := bytesIndexOf (bytesToLower content) (strBytes ("url="))
    let inner :=
      match urlIndex, httpEquiv == strBytes ("refresh") with
      | some i, true =>
        match ProxifyURI ext key baseURL (metaContentUrl content i) with
        | some uri =>
          strBytes (" http-equiv=\"refresh\" content=\"") ++ content.take i ++
            strBytes ("url=") ++ uri ++ strBytes ("\"")
        | none => []
      | _, _ =>
        (if 0 < httpEquiv.length then
          strBytes (" http-equiv=\"") ++ httpEquiv ++ strBytes ("\"")
        else []) ++ sanitizeAttrs ext key baseURL attrs
    strBytes ("<meta") ++ inner ++ strBytes (">")

/-- The form hidden-input injection after an opening form tag
(morty.go lines 681-704): resolve the first action attribute against the
base URL (a url.Parse error leaves the base URL), hash it when a key is
configured, render the HtmlFormExtension template. -/
def formExtension (ext : Ext) (key : Option (List Nat)) (baseURL : GoURL)
    (attrs : List (List Nat × List Nat)) : List Nat :=
  let formURL :=
    match attrs.find? (fun a => a.1 == strBytes ("action")) with
    | some a => mergeURIs ext baseURL (ext.urlParse a.2)
    | none => baseURL
  let urlStr := ext.urlString formURL
  let keyStr :=
    match key with
    | some k => hash ext urlStr k
    | none => []
  ext.renderFormExt urlStr keyStr

/-- The per-call state of sanitizeHTML: the RequestConfig fields it may
mutate (BaseURL, BodyInjected), the shared output, and the call-local
tokenizer mode and stack of open unsafe element names (the Go local
variable unsafeElements). -/
structure HState where
  baseURL : GoURL
  bodyInjected : Bool
  mode : Nat
  openUnsafe : List (List Nat)
  out : List Nat
  deriving Repr, DecidableEq

/-- One iteration of the sanitizeHTML token loop.  recur performs the
recursive sanitizeHTML call on noscript text (it re-tokenizes the raw
bytes with a fresh mode and stack but shares rc and out). -/
def stepToken (ext : Ext) (key : Option (List Nat))
    (recur : HState → List Nat → HState) (st : HState) (tok : HToken) : HState :=
  if st.openUnsafe.isEmpty then
    match tok with
    | .startTag tag attrs selfClosing =>
      if inArray tag UnsafeElements then
        if selfClosing then st
        else { st with openUnsafe := st.openUnsafe ++ [tag] }
      else if tag == strBytes ("base") then
        let hrefStep : GoURL → List Nat × List Nat → GoURL := fun b a =>
          if a.1 == strBytes ("href") then
            match ext.urlParse a.2 with
            | some u => u
            | none => b
          else b
        { st with baseURL := attrs.foldl hrefStep st.baseURL }
      else if tag == strBytes ("noscript") then
        { st with mode := StateInNoscript }
      else
        let attrs3 := attrs.map (fun a => (a.1, a.2, ext.escapeString a.2))
        if tag == strBytes ("link") then
          { st with out := st.out ++ sanitizeLinkTag ext key st.baseURL attrs3 }
        else if tag == strBytes ("meta") then
          { st with out := st.out ++ sanitizeMetaTag ext key st.baseURL attrs3 }
        else
          let o1 := strBytes ("<") ++ tag ++ sanitizeAttrs ext key st.baseURL attrs3
          let o2 := if selfClosing then o1 ++ strBytes (" />") else o1 ++ strBytes (">")
          let mode' :=
            if selfClosing then st.mode
            else if tag == strBytes ("style") then StateInStyle else st.mode
          let o3 := if tag == strBytes ("head") then o2 ++ strBytes (HtmlHeadContentType) else o2
          let o4 := if tag == strBytes ("form") then o3 ++ formExtension ext key st.baseURL attrs else o3
          { st with out := st.out ++ o4, mode := mode' }
    | .endTag tag =>
      if tag == strBytes ("body") then
        let keyFlag := match key with | some k => decide (0 < k.length) | none => false
        { st with
          out := st.out ++ ext.renderBodyExt (ext.urlString st.baseURL) keyFlag ++
            strBytes ("</") ++ tag ++ strBytes (">"),
          bodyInjected := true }
      else if tag == strBytes ("style") then
        { st with
          mode := StateDefault,
          out := st.out ++ strBytes ("</") ++ tag ++ strBytes (">") }
      else if tag == strBytes ("noscript") then
        { st with mode := StateDefault }
      else
        { st with out := st.out ++ strBytes ("</") ++ tag ++ strBytes (">") }
    | .text raw =>
      if st.mode == StateDefault then { st with out := st.out ++ raw }
      else if st.mode == StateInStyle then
        { st with out := st.out ++ sanitizeCSS ext key st.baseURL raw }
      else if st.mode == StateInNoscript then recur st raw
      else st
    | .comment _ => st
    | .doctype raw => { st with out := st.out ++ raw }
  else
    match tok with
    | .startTag tag _ _ =>
      if inArray tag UnsafeElements then
        { st with openUnsafe := st.openUnsafe ++ [tag] }
      else st
    | .endTag tag =>
      if st.openUnsafe.getLast? == some tag then
        { st with openUnsafe := st.openUnsafe.dropLast }
      else st
    | _ => st

/-- The token loop of sanitizeHTML over a token list.  The fuel bounds the
depth of noscript re-tokenization (each recursive sanitizeHTML call spends
one unit; the token loop itself is structural on the list). -/
def processTokens (ext : Ext) (key : Option (List Nat)) :
    Nat → HState → List HToken → HState
  | _, st, [] => st
  | fuel, st, tok :: rest =>
    let recur : HState → List Nat → HState := fun s raw =>
      match fuel with
      | 0 => s
      | f + 1 =>
        let inner := processTokens ext key f
          { s with mode := StateDefault, openUnsafe := [] } (ext.tokenize raw)
        { inner with mode := s.mode, openUnsafe := s.openUnsafe }
    processTokens ext key fuel (stepToken ext key recur st tok) rest
  termination_by fuel _ toks => (fuel, toks.length)
  decreasing_by
    · simp_wf; omega
    · simp_wf; omega

/-- morty.go sanitizeHTML: tokenize and run the loop with a fresh mode and
stack over the caller-supplied RequestConfig fields and output. -/
def sanitizeHTML (ext : Ext) (key : Option (List Nat)) (fuel : Nat)
    (baseURL : GoURL) (bodyInjected : Bool) (out0 : List Nat)
    (htmlDoc : List Nat) : HState :=
  processTokens ext key fuel
    ⟨baseURL, bodyInjected, StateDefault, [], out0⟩ (ext.tokenize htmlDoc)

/-! ## ProcessUri (morty.go lines 320-506), redirect handling -/

/-- Outcome of one upstream fetch (CLIENT.DoTimeout): a timeout error, a
non-timeout transport error, or a response with its status code and the
Location header (none = absent). -/
inductive FetchResult where
  | timeoutErr
  | transportErr
  | ok (status : Nat) (location : Option (List Nat))
  deriving Repr, DecidableEq

/-- Result of ProcessUri.  content stands for the whole status-200 content
pipeline (content-type gating, charset conversion, sanitizer dispatch,
morty.go lines 412-506), in which ProcessUri never recurses; it records
the parsed request URI it is entered with. -/
inductive PResult where
  | mainPage (status : Nat)
  | exitPage (u : GoURL)
  | redirect (status : Nat) (location : List Nat)
  | content (u : GoURL)
  deriving Repr, DecidableEq

/-- The per-request environment of ProcessUri: the external bundle, the
upstream client as a function of the request URI, and the Proxy and
request fields read by the redirect logic. -/
structure PEnv where
  ext : Ext
  fetch : List Nat → FetchResult
  isGet : Bool
  followRedirect : Bool
  key : Option (List Nat)

/-- ProcessUri with an explicit gas parameter making the recursion
structural.  ProcessUri recurses only in the redirect branch, guarded by
redirectCount < MaxRedirectCount; gas is the measure
MaxRedirectCount - redirectCount, so with that coupling (established by
ProcessUri below and preserved by the recursive call) the gas-exhausted
branch is unreachable.  The pair component counts followed redirects. -/
def ProcessUriGas (env : PEnv) : Nat → List Nat → Nat → PResult × Nat
  | gas, requestURIStr, redirectCount =>
    match env.ext.urlParse requestURIStr with
    | none => (PResult.mainPage 500, 0)
    | some parsed0 =>
      let retry :=
        if parsed0.scheme == [] then
          match env.ext.urlParse (strBytes ("https://") ++ requestURIStr) with
          | none => none
          | some p => some (strBytes ("https://") ++ requestURIStr, p)
        else some (requestURIStr, parsed0)
      match retry with
      | none => (PResult.mainPage 500, 0)
      | some (uriStr, parsedURI) =>
        if !(parsedURI.scheme == strBytes ("http") ||
              parsedURI.scheme == strBytes ("https")) ||
            (strBytes (".onion")).isSuffixOf parsedURI.host then
          (PResult.exitPage parsedURI, 0)
        else
          match env.fetch uriStr with
          | FetchResult.timeoutErr => (PResult.mainPage 504, 0)
          | FetchResult.transportErr => (PResult.mainPage 500, 0)
          | FetchResult.ok status location =>
            if status ≠ 200 then
              if status = 301 ∨ status = 302 ∨ status = 303 ∨
                  status = 307 ∨ status = 308 then
                match location with
                | some loc =>
                  if env.followRedirect && env.isGet then
                    if redirectCount < MaxRedirectCount then
                      match gas with
                      | g + 1 =>
                        let r := ProcessUriGas env g loc (redirectCount + 1)
                        (r.1, r.2 + 1)
                      | 0 => (PResult.mainPage 310, 0)
                    else (PResult.mainPage 310, 0)
                  else
                    match ProxifyURI env.ext env.key parsedURI loc with
                    | some proxyUri => (PResult.redirect status proxyUri, 0)
                    | none => (PResult.mainPage status, 0)
                | none => (PResult.mainPage status, 0)
              else (PResult.mainPage status, 0)
            else (PResult.content parsedURI, 0)

/-- Proxy.ProcessUri: the gas is instantiated with the termination measure
MaxRedirectCount - redirectCount, which the redirect guard keeps positive,
so this agrees with the Go recursion at every redirectCount. -/
def ProcessUri (env : PEnv) (requestURIStr : List Nat)
    (redirectCount : Nat) : PResult × Nat :=
  ProcessUriGas env (MaxRedirectCount - redirectCount) requestURIStr redirectCount

/-! ## ContentType (contenttype package) -/

/-- contenttype.ContentType; the Go map Parameters is modelled as an
association list (a Go map has no duplicate keys, which theorems state as
a Nodup hypothesis on the key list). -/
structure ContentType where
  TopLevelType : String
  SubType : String
  Suffix : String
  Parameters : List (String × String)
  deriving Repr, DecidableEq

/-- Go map indexing m[k]: the stored value, or the zero value "" when the
key is absent. -/
def lookupGo (m : List (String × String)) (k : String) : String :=
  match m.find? (fun p => p.1 == k) with
  | some p => p.2
  | none => ""

/-- contenttype.ContentType.Equals: reject on any differing name field or
on differing parameter counts, then require other.Parameters[k] == v for
every entry (k, v) of the receiver (Go map indexing, so a missing key
reads as ""). -/
def ContentType.Equals (ct other : ContentType) : Bool :=
  if ct.TopLevelType ≠ other.TopLevelType ∨ ct.SubType ≠ other.SubType ∨
      ct.Suffix ≠ other.Suffix ∨
      ct.Parameters.length ≠ other.Parameters.length then
    false
  else
    ct.Parameters.all (fun kv => lookupGo other.Parameters kv.1 == kv.2)

/-! ## Proof-side helper definitions for the sanitizeURI scanner -/

/-- A byte the scanner keeps inside a scheme before the colon: not
skipped, fixed by lower-casing, and neither the colon nor a break
character. -/
def goodByte (c : Nat) : Prop :=
  32 < c ∧ lowerByte c = c ∧ c ≠ 58 ∧ c ≠ 47 ∧ c ≠ 63 ∧ c ≠ 92 ∧ c ≠ 35

/-- The stopping behaviour of the scanner that decides whether a colon is
found, as a function of the input bytes alone. -/
def stopsNoColon : List Nat → Bool
  | [] => true
  | c :: rest =>
    if c ≤ 32 then stopsNoColon rest
    else if lowerByte c = 58 then false
    else if lowerByte c = 47 ∨ lowerByte c = 63 ∨ lowerByte c = 92 ∨
        lowerByte c = 35 then true
    else stopsNoColon rest

/-! ## Concrete instances used by witnesses and counterexamples -/

/-- A concrete external bundle in which url.Parse always fails (as the
real net/url does on, for example, "http://["). -/
def failParseExt : Ext :=
  { urlParse := fun _ => none, resolveReference := fun a _ => a,
    urlString := fun _ => [], queryEscape := fun x => x,
    hmacSha256 := fun _ _ => [], escapeString := fun x => x,
    cssMatches := fun _ => [], tokenize := fun _ => [],
    renderFormExt := fun _ _ => [], renderBodyExt := fun _ _ => [] }

/-- The base URL http://127.0.0.1/ used by the repository tests. -/
def baseExample : GoURL :=
  ⟨strBytes ("http"), none, strBytes ("127.0.0.1"), strBytes ("/"), [], []⟩

/-- A sanitizer state with one open unsafe element (an open svg). -/
def hsExample : HState :=
  ⟨baseExample, false, StateDefault, [strBytes ("svg")], strBytes ("<p>")⟩

/-- A bundle with a non-trivial HMAC so that hashing is visible. -/
def hmacExt : Ext :=
  { failParseExt with hmacSha256 := fun _ _ => [222, 173, 190, 239] }

/-- A concrete external bundle in which url.Parse always succeeds with
the base URL http://127.0.0.1/. -/
def okParseExt : Ext :=
  { failParseExt with urlParse := fun _ => some baseExample }

/-- An environment whose upstream always answers 302 with a Location,
parsed URLs being http://127.0.0.1/. -/
def redirectEnv : PEnv :=
  { ext := okParseExt,
    fetch := fun _ => FetchResult.ok 302 (some (strBytes ("http://l/"))),
    isGet := true, followRedirect := true, key := none }

/-- ContentType a/b+c with the single parameter a mapped to the empty
string. -/
def ctA : ContentType := ⟨"a", "b", "c", [("a", "")]⟩

/-- ContentType a/b+c with the single parameter b mapped to x. -/
def ctB : ContentType := ⟨"a", "b", "c", [("b", "x")]⟩

/-- ContentType text/html with parameter charset=UTF-8. -/
def ctW : ContentType := ⟨"text", "html", "", [("charset", "UTF-8")]⟩

/-- External bundle reporting one CSS url(...) submatch at bytes 4..12
(the URL inside url(http://[), which net/url rejects). -/
def cssCExt : Ext :=
  { failParseExt with cssMatches := fun _ => [(4, 12)] }

/-! ## Validation of the embedding against morty_test.go -/

/-- The sanitizeURI embedding reproduces every ASCII test vector of
TestSanitizeURI in morty_test.go. -/
theorem sanitizeURI_test_vectors :
    sanitizeURI (strBytes ("http://example.com/")) =
      (strBytes ("http://example.com/"), strBytes ("http:")) ∧
    sanitizeURI (strBytes ("HtTPs://example.com/     \t")) =
      (strBytes ("https://example.com/"), strBytes ("https:")) ∧
    sanitizeURI (strBytes ("      Ht  TPs://example.com/     \t")) =
      (strBytes ("https://example.com/"), strBytes ("https:")) ∧
    sanitizeURI (strBytes ("javascript:void(0)")) =
      (strBytes ("javascript:void(0)"), strBytes ("javascript:")) ∧
    sanitizeURI (strBytes ("      /path/to/a/file/without/protocol     ")) =
      (strBytes ("/path/to/a/file/without/protocol"), []) ∧
    sanitizeURI (strBytes ("      #fragment     ")) =
      (strBytes ("#fragment"), []) ∧
    sanitizeURI (strBytes ("      qwertyuiop     ")) =
      (strBytes ("qwertyuiop"), []) ∧
    sanitizeURI [] = ([], []) ∧
    sanitizeURI (strBytes (":")) = (strBytes (":"), strBytes (":")) ∧
    sanitizeURI (strBytes ("   :")) = (strBytes (":"), strBytes (":")) := by
  refine ⟨?_, ?_, ?_, ?_, ?_, ?_, ?_, ?_, ?_, ?_⟩ <;> decide

/-- The sanitizeAttr embedding drops a non-whitelisted onclick attribute,
as in TestAttrSanitizer of morty_test.go. -/
theorem sanitizeAttr_drops_onclick :
    sanitizeAttr failParseExt none baseExample (strBytes ("onclick"))
      (strBytes ("console.log(1)")) (strBytes ("console.log(1)")) = [] := by
  decide

/-! ## Claim C3: ProxifyURI scheme dispatch -/

/-- Shared helper: a javascript: scheme, or a data: scheme outside the
image allow list, makes ProxifyURI return the empty string with nil
error. -/
theorem ProxifyURI_suppressed (ext : Ext) (key : Option (List Nat))
    (baseURL : GoURL) (uri : List Nat)
    (h : (sanitizeURI uri).2 = strBytes ("javascript:") ∨
      ((sanitizeURI uri).2 = strBytes ("data:") ∧
        dataAllowed (sanitizeURI uri).1 = false)) :
    ProxifyURI ext key baseURL uri = some [] := by
  have hne : (strBytes ("data:") == strBytes ("javascript:")) = false := by decide
  rcases h with h | ⟨h, hd⟩
  · unfold ProxifyURI
    simp [h]
  · unfold ProxifyURI
    simp [h, hne, hd]

/-- Shared helper: a data: scheme inside the image allow list makes
ProxifyURI return the sanitized bytes unchanged with nil error. -/
theorem ProxifyURI_data_allowed (ext : Ext) (key : Option (List Nat))
    (baseURL : GoURL) (uri : List Nat)
    (h : (sanitizeURI uri).2 = strBytes ("data:"))
    (hd : dataAllowed (sanitizeURI uri).1 = true) :
    ProxifyURI ext key baseURL uri = some (sanitizeURI uri).1 := by
  have hne : (strBytes ("data:") == strBytes ("javascript:")) = false := by decide
  unfold ProxifyURI
  simp [h, hne, hd]

/-- Claim C3: for every input byte slice, a sanitized scheme javascript:
makes ProxifyURI return the empty string with no error; a sanitized
scheme data: makes it return the sanitized bytes unchanged exactly when
they carry one of the five allowed image prefixes, and the empty string
(with no error) for every other data: URI. -/
theorem claim3_scheme_dispatch (ext : Ext) (key : Option (List Nat))
    (baseURL : GoURL) (uri : List Nat) :
    ((sanitizeURI uri).2 = strBytes ("javascript:") →
      ProxifyURI ext key baseURL uri = some []) ∧
    ((sanitizeURI uri).2 = strBytes ("data:") →
      (dataAllowed (sanitizeURI uri).1 = true →
        ProxifyURI ext key baseURL uri = some (sanitizeURI uri).1) ∧
      (dataAllowed (sanitizeURI uri).1 = false →
        ProxifyURI ext key baseURL uri = some [])) := by
  refine ⟨fun h => ProxifyURI_suppressed ext key baseURL uri (Or.inl h), fun h => ⟨?_, ?_⟩⟩
  · exact fun hd => ProxifyURI_data_allowed ext key baseURL uri h hd
  · exact fun hd => ProxifyURI_suppressed ext key baseURL uri (Or.inr ⟨h, hd⟩)

/-- Witness for C3 at concrete inputs: a javascript: URI is suppressed, an
allowed data: image URI passes through unchanged, a disallowed data: URI
is suppressed. -/
theorem claim3_scheme_dispatch_witness :
    ProxifyURI failParseExt none baseExample (strBytes ("javascript:void(0)")) = some [] ∧
    ProxifyURI failParseExt none baseExample (strBytes ("data:image/png;base64,iVBOR")) =
      some (strBytes ("data:image/png;base64,iVBOR")) ∧
    ProxifyURI failParseExt none baseExample (strBytes ("data:text/html,<p>x</p>")) = some [] := by
  refine ⟨(claim3_scheme_dispatch failParseExt none baseExample _).1 (by decide), ?_, ?_⟩
  · have h := ((claim3_scheme_dispatch failParseExt none baseExample
      (strBytes ("data:image/png;base64,iVBOR"))).2 (by decide)).1 (by decide)
    rw [h]
    decide
  · exact ((claim3_scheme_dispatch failParseExt none baseExample
      (strBytes ("data:text/html,<p>x</p>"))).2 (by decide)).2 (by decide)

/-! ## Claim C1: shape of the emitted URLs (corrected) -/

/-- A list is a prefix of itself followed by anything. -/
theorem isPrefixOf_append_self (a b : List Nat) : a.isPrefixOf (a ++ b) = true := by
  induction a with
  | nil => simp [List.isPrefixOf]
  | cons x xs ih => simp [List.isPrefixOf, ih]

/-- Shared helper: every URL ProxifyURI emits with a nil key has the
shape claimed by C1. -/
theorem ProxifyURI_nokey_shape (ext : Ext) (baseURL : GoURL)
    (uri out : List Nat)
    (h : ProxifyURI ext none baseURL uri = some out) : mortyShape out := by
  unfold ProxifyURI at h
  dsimp only at h
  split at h
  · -- javascript: suppressed
    simp only [Option.some.injEq] at h
    exact Or.inr (Or.inl h.symm)
  · split at h
    · split at h
      next hall =>
        -- allowed data: URI returned unchanged
        simp only [Option.some.injEq] at h
        exact Or.inr (Or.inr (Or.inr (h ▸ hall)))
      next hall =>
        simp only [Option.some.injEq] at h
        exact Or.inr (Or.inl h.symm)
    · split at h
      · simp at h
      · split at h
        · -- self link: pure fragment
          simp only [Option.some.injEq] at h
          split at h
          · exact Or.inr (Or.inr (Or.inl ⟨_, h.symm⟩))
          · exact Or.inr (Or.inl h.symm)
        · -- rewritten through the proxy
          simp only [Option.some.injEq] at h
          subst h
          exact Or.inl (isPrefixOf_append_self _ _)

/-- Counterexample to C1: sanitizing the CSS input url(http://[) with a
nil key emits the input byte for byte, because ProxifyURI fails on the
matched URL http://[ (net/url rejects it) and the loop keeps the pending
span.  The output therefore contains a CSS url(...) reference, at bytes
4..12, whose URL has none of the three shapes the claim allows. -/
theorem claim1_counterexample :
    ProxifyURI cssCExt none baseExample (strBytes ("http://[")) = none ∧
    sanitizeCSS cssCExt none baseExample (strBytes ("url(http://[)")) =
      strBytes ("url(http://[)") ∧
    slice (strBytes ("url(http://[)")) 4 12 = strBytes ("http://[") ∧
    ¬ mortyShape (strBytes ("http://[")) := by
  refine ⟨by decide, by decide, by decide, ?_⟩
  intro h
  rcases h with h | h | ⟨rest, h⟩ | h
  · exact absurd h (by decide)
  · exact absurd h (by decide)
  · have h35 : (strBytes ("http://[")).head? = some 35 := by
      rw [h]
      rfl
    exact absurd h35 (by decide)
  · exact absurd h (by decide)

/-- Amended C1: with a nil Key, every URL the sanitizer emits through a
successful ProxifyURI rewrite has the claimed shape (./?mortyurl=
prefix, pure fragment possibly empty, or an allowed data:image URI), at
each emission site - every successful ProxifyURI result, every
href/src/action attribute value written by sanitizeAttr, every URL
inserted by the sanitizeCSS rewriting loop, and every URL written into a
meta refresh content value.  When ProxifyURI fails, no rewritten URL is
emitted - the href/src/action attribute is dropped and the meta tag
carries no URL - but a matched CSS url(...) reference is skipped
entirely, so its original URL bytes stay verbatim in the output and the
shape invariant does not extend to them (claim1_counterexample). -/
theorem claim1_output_url_shape (ext : Ext) (baseURL : GoURL) :
    (∀ uri out, ProxifyURI ext none baseURL uri = some out → mortyShape out) ∧
    (∀ attrName attrValue escapedAttrValue,
      (attrName = strBytes ("src") ∨ attrName = strBytes ("href") ∨
        attrName = strBytes ("action")) →
      sanitizeAttr ext none baseURL attrName attrValue escapedAttrValue = [] ∨
      ∃ out, mortyShape out ∧
        ProxifyURI ext none baseURL attrValue = some out ∧
        sanitizeAttr ext none baseURL attrName attrValue escapedAttrValue =
          strBytes (" ") ++ attrName ++ strBytes ("=\"") ++ out ++ strBytes ("\"")) ∧
    (∀ css urlStart urlEnd rest startIndex out,
      ProxifyURI ext none baseURL (slice css urlStart urlEnd) = some out →
      mortyShape out ∧
      sanitizeCSSLoop ext none baseURL css ((urlStart, urlEnd) :: rest) startIndex =
        slice css startIndex urlStart ++ out ++
          sanitizeCSSLoop ext none baseURL css rest urlEnd) ∧
    (∀ attrs httpEquiv content i out,
      metaScan attrs [] [] = some (httpEquiv, content) →
      (httpEquiv == strBytes ("refresh")) = true →
      bytesIndexOf (bytesToLower content) (strBytes ("url=")) = some i →
      ProxifyURI ext none baseURL (metaContentUrl content i) = some out →
      mortyShape out ∧
      sanitizeMetaTag ext none baseURL attrs =
        strBytes ("<meta") ++
          (strBytes (" http-equiv=\"refresh\" content=\"") ++ content.take i ++
            strBytes ("url=") ++ out ++ strBytes ("\"")) ++ strBytes (">")) ∧
    (∀ attrName attrValue escapedAttrValue,
      (attrName = strBytes ("src") ∨ attrName = strBytes ("href") ∨
        attrName = strBytes ("action")) →
      ProxifyURI ext none baseURL attrValue = none →
      sanitizeAttr ext none baseURL attrName attrValue escapedAttrValue = []) ∧
    (∀ css urlStart urlEnd rest startIndex,
      ProxifyURI ext none baseURL (slice css urlStart urlEnd) = none →
      sanitizeCSSLoop ext none baseURL css ((urlStart, urlEnd) :: rest) startIndex =
        sanitizeCSSLoop ext none baseURL css rest startIndex) ∧
    (∀ attrs httpEquiv content i,
      metaScan attrs [] [] = some (httpEquiv, content) →
      (httpEquiv == strBytes ("refresh")) = true →
      bytesIndexOf (bytesToLower content) (strBytes ("url=")) = some i →
      ProxifyURI ext none baseURL (metaContentUrl content i) = none →
      sanitizeMetaTag ext none baseURL attrs = strBytes ("<meta>")) := by
  refine ⟨ProxifyURI_nokey_shape ext baseURL, ?_, ?_, ?_, ?_, ?_, ?_⟩
  · intro attrName attrValue escapedAttrValue hn
    have hsafe : inArray attrName SafeAttributes = false := by
      rcases hn with rfl | rfl | rfl <;> decide
    have hsw : (attrName == strBytes ("src") || attrName == strBytes ("href") ||
        attrName == strBytes ("action")) = true := by
      rcases hn with rfl | rfl | rfl <;> decide
    cases hp : ProxifyURI ext none baseURL attrValue with
    | none =>
      left
      simp [sanitizeAttr, hsafe, hsw, hp]
    | some out =>
      right
      refine ⟨out, ProxifyURI_nokey_shape ext baseURL attrValue out hp, rfl, ?_⟩
      simp [sanitizeAttr, hsafe, hsw, hp]
  · intro css urlStart urlEnd rest startIndex out hp
    refine ⟨ProxifyURI_nokey_shape ext baseURL _ out hp, ?_⟩
    conv_lhs => rw [sanitizeCSSLoop]
    rw [hp]
  · intro attrs httpEquiv content i out hscan hrefresh hidx hp
    refine ⟨ProxifyURI_nokey_shape ext baseURL _ out hp, ?_⟩
    unfold sanitizeMetaTag
    rw [hscan]
    dsimp only
    rw [hidx, hrefresh]
    simp only [hp]
  · intro attrName attrValue escapedAttrValue hn hp
    have hsafe : inArray attrName SafeAttributes = false := by
      rcases hn with rfl | rfl | rfl <;> decide
    have hsw : (attrName == strBytes ("src") || attrName == strBytes ("href") ||
        attrName == strBytes ("action")) = true := by
      rcases hn with rfl | rfl | rfl <;> decide
    simp [sanitizeAttr, hsafe, hsw, hp]
  · intro css urlStart urlEnd rest startIndex hp
    conv_lhs => rw [sanitizeCSSLoop]
    rw [hp]
  · intro attrs httpEquiv content i hscan hrefresh hidx hp
    unfold sanitizeMetaTag
    rw [hscan]
    dsimp only
    rw [hidx, hrefresh]
    simp only [hp]
    decide

/-- Witness for the amended C1: the four success-side emission sites and
the three failure-side behaviours at concrete inputs - a suppressed
javascript: URL, a concrete href attribute, a CSS url(...) match whose
URL resolves to the base URL (a self link), a meta refresh content, and
an href, a CSS match and a meta refresh whose URL http://[ fails to
parse. -/
theorem claim1_output_url_shape_witness :
    mortyShape [] ∧
    (sanitizeAttr okParseExt none baseExample (strBytes ("href"))
        (strBytes ("javascript:x")) (strBytes ("javascript:x")) = [] ∨
      ∃ out, mortyShape out ∧
        ProxifyURI okParseExt none baseExample (strBytes ("javascript:x")) = some out ∧
        sanitizeAttr okParseExt none baseExample (strBytes ("href"))
          (strBytes ("javascript:x")) (strBytes ("javascript:x")) =
          strBytes (" ") ++ strBytes ("href") ++ strBytes ("=\"") ++ out ++
            strBytes ("\"")) ∧
    (mortyShape [] ∧
      sanitizeCSSLoop okParseExt none baseExample (strBytes ("url(x)")) [(4, 5)] 0 =
        slice (strBytes ("url(x)")) 0 4 ++ [] ++
          sanitizeCSSLoop okParseExt none baseExample (strBytes ("url(x)")) [] 5) ∧
    (mortyShape [] ∧
      sanitizeMetaTag okParseExt none baseExample
        [(strBytes ("http-equiv"), strBytes ("refresh"), strBytes ("refresh")),
         (strBytes ("content"), strBytes ("0; url=x"), strBytes ("0; url=x"))] =
        strBytes ("<meta") ++
          (strBytes (" http-equiv=\"refresh\" content=\"") ++
            (strBytes ("0; url=x")).take 3 ++ strBytes ("url=") ++ [] ++
            strBytes ("\"")) ++ strBytes (">")) ∧
    sanitizeAttr cssCExt none baseExample (strBytes ("href"))
      (strBytes ("http://[")) (strBytes ("http://[")) = [] ∧
    sanitizeCSSLoop cssCExt none baseExample (strBytes ("url(http://[)"))
        [(4, 12)] 0 =
      sanitizeCSSLoop cssCExt none baseExample (strBytes ("url(http://[)")) [] 0 ∧
    sanitizeMetaTag cssCExt none baseExample
        [(strBytes ("http-equiv"), strBytes ("refresh"), strBytes ("refresh")),
         (strBytes ("content"), strBytes ("0; url=http://["),
          strBytes ("0; url=http://["))] =
      strBytes ("<meta>") :=
  ⟨(claim1_output_url_shape failParseExt baseExample).1
      (strBytes ("javascript:alert(1)")) [] (by decide),
   (claim1_output_url_shape okParseExt baseExample).2.1
      (strBytes ("href")) (strBytes ("javascript:x")) (strBytes ("javascript:x"))
      (Or.inr (Or.inl rfl)),
   (claim1_output_url_shape okParseExt baseExample).2.2.1
      (strBytes ("url(x)")) 4 5 [] 0 [] (by decide),
   (claim1_output_url_shape okParseExt baseExample).2.2.2.1
      [(strBytes ("http-equiv"), strBytes ("refresh"), strBytes ("refresh")),
       (strBytes ("content"), strBytes ("0; url=x"), strBytes ("0; url=x"))]
      (strBytes ("refresh")) (strBytes ("0; url=x")) 3 []
      (by decide) (by decide) (by decide) (by decide),
   (claim1_output_url_shape cssCExt baseExample).2.2.2.2.1
      (strBytes ("href")) (strBytes ("http://[")) (strBytes ("http://["))
      (Or.inr (Or.inl rfl)) (by decide),
   (claim1_output_url_shape cssCExt baseExample).2.2.2.2.2.1
      (strBytes ("url(http://[)")) 4 12 [] 0 (by decide),
   (claim1_output_url_shape cssCExt baseExample).2.2.2.2.2.2
      [(strBytes ("http-equiv"), strBytes ("refresh"), strBytes ("refresh")),
       (strBytes ("content"), strBytes ("0; url=http://["),
        strBytes ("0; url=http://["))]
      (strBytes ("refresh")) (strBytes ("0; url=http://[")) 3
      (by decide) (by decide) (by decide) (by decide)⟩

/-! ## Claim C10: suppressed URL attributes are kept with an empty value -/

/-- Claim C10: for src, href and action attributes whose value sanitizes
to a javascript: scheme or to a disallowed data: URI, sanitizeAttr still
emits the attribute with an empty value instead of dropping it, because
ProxifyURI reports suppression as the empty string with a nil error. -/
theorem claim10_suppressed_attr_kept (ext : Ext) (key : Option (List Nat))
    (baseURL : GoURL) (attrName attrValue escapedAttrValue : List Nat)
    (hn : attrName = strBytes ("src") ∨ attrName = strBytes ("href") ∨
      attrName = strBytes ("action"))
    (hs : (sanitizeURI attrValue).2 = strBytes ("javascript:") ∨
      ((sanitizeURI attrValue).2 = strBytes ("data:") ∧
        dataAllowed (sanitizeURI attrValue).1 = false)) :
    sanitizeAttr ext key baseURL attrName attrValue escapedAttrValue =
      strBytes (" ") ++ attrName ++ strBytes ("=\"\"") := by
  have hp := ProxifyURI_suppressed ext key baseURL attrValue hs
  rcases hn with hn | hn | hn <;> subst hn
  · have h1 : inArray (strBytes ("src")) SafeAttributes = false := by decide
    simp [sanitizeAttr, h1, hp]
    decide
  · have h1 : inArray (strBytes ("href")) SafeAttributes = false := by decide
    simp [sanitizeAttr, h1, hp]
    decide
  · have h1 : inArray (strBytes ("action")) SafeAttributes = false := by decide
    simp [sanitizeAttr, h1, hp]
    decide

/-- Witness for C10: a concrete href with a javascript: value is emitted
as href with an empty value. -/
theorem claim10_suppressed_attr_kept_witness :
    sanitizeAttr failParseExt none baseExample (strBytes ("href"))
      (strBytes ("javascript:x")) (strBytes ("javascript:x")) =
      strBytes (" ") ++ strBytes ("href") ++ strBytes ("=\"\"") :=
  claim10_suppressed_attr_kept failParseExt none baseExample _ _ _
    (Or.inr (Or.inl rfl)) (Or.inl (by decide))

/-! ## Claim C6: CSS rewrite failures (corrected) -/

/-- Counterexample to C6: on the CSS input url(http://[) whose single
matched URL http://[ fails ProxifyURI, the URL bytes are NOT dropped:
the output is the whole input, byte for byte, not url() as the claim
predicts. -/
theorem claim6_counterexample :
    ProxifyURI cssCExt none baseExample
      (slice (strBytes ("url(http://[)")) 4 12) = none ∧
    sanitizeCSS cssCExt none baseExample (strBytes ("url(http://[)")) =
      strBytes ("url(http://[)") ∧
    sanitizeCSS cssCExt none baseExample (strBytes ("url(http://[)")) ≠
      strBytes ("url()") := by
  decide

/-- Amended C6: when ProxifyURI fails on a matched url(...) reference,
sanitizeCSS skips that match entirely - the output is exactly as if the
match had not been reported, so the failed URL bytes are kept verbatim
(they are emitted later inside a surrounding span) and all other bytes
are emitted unchanged and in order. -/
theorem claim6_amended (ext : Ext) (key : Option (List Nat))
    (baseURL : GoURL) (css : List Nat) (urlStart urlEnd : Nat)
    (rest : List (Nat × Nat)) (startIndex : Nat)
    (h : ProxifyURI ext key baseURL (slice css urlStart urlEnd) = none) :
    sanitizeCSSLoop ext key baseURL css ((urlStart, urlEnd) :: rest) startIndex =
      sanitizeCSSLoop ext key baseURL css rest startIndex := by
  conv_lhs => rw [sanitizeCSSLoop]
  rw [h]

/-- Witness for the amended C6 at the concrete failing input. -/
theorem claim6_amended_witness :
    sanitizeCSSLoop cssCExt none baseExample (strBytes ("url(http://[)"))
      [(4, 12)] 0 =
    sanitizeCSSLoop cssCExt none baseExample (strBytes ("url(http://[)")) [] 0 :=
  claim6_amended cssCExt none baseExample _ 4 12 [] 0 (by decide)

/-! ## Claim C2: the unsafe-element stack suppresses all output -/

/-- Claim C2: while the stack of open unsafe element names is non-empty,
processing any token writes no bytes to the output and leaves the base
URL, mode and body-injected flag untouched; the stack itself only gets a
push (start or self-closing tag of an unsafe element) or a pop (end tag
equal to the top of the stack). -/
theorem claim2_unsafe_stack_silent (ext : Ext) (key : Option (List Nat))
    (recur : HState → List Nat → HState) (st : HState) (tok : HToken)
    (h : st.openUnsafe ≠ []) :
    (stepToken ext key recur st tok).out = st.out ∧
    (stepToken ext key recur st tok).mode = st.mode ∧
    (stepToken ext key recur st tok).baseURL = st.baseURL ∧
    (stepToken ext key recur st tok).bodyInjected = st.bodyInjected ∧
    (match tok with
     | .startTag tag _ _ =>
       (stepToken ext key recur st tok).openUnsafe =
         if inArray tag UnsafeElements then st.openUnsafe ++ [tag]
         else st.openUnsafe
     | .endTag tag =>
       (stepToken ext key recur st tok).openUnsafe =
         if st.openUnsafe.getLast? == some tag then st.openUnsafe.dropLast
         else st.openUnsafe
     | _ => (stepToken ext key recur st tok).openUnsafe = st.openUnsafe) := by
  have hne : st.openUnsafe.isEmpty = false := by
    rcases hs : st.openUnsafe with _ | ⟨a, t⟩
    · exact absurd hs h
    · simp [hs]
  cases tok <;>
    simp only [stepToken, hne, Bool.false_eq_true, if_false] <;>
    refine ⟨?_, ?_, ?_, ?_, ?_⟩ <;>
    (try split) <;> simp

/-- Witness for C2: a script start tag seen inside an open svg element is
pushed and writes nothing. -/
theorem claim2_unsafe_stack_silent_witness :
    (stepToken failParseExt none (fun s _ => s) hsExample
      (HToken.startTag (strBytes ("script")) [] false)).out = hsExample.out ∧
    (stepToken failParseExt none (fun s _ => s) hsExample
      (HToken.startTag (strBytes ("script")) [] false)).mode = hsExample.mode ∧
    (stepToken failParseExt none (fun s _ => s) hsExample
      (HToken.startTag (strBytes ("script")) [] false)).baseURL = hsExample.baseURL ∧
    (stepToken failParseExt none (fun s _ => s) hsExample
      (HToken.startTag (strBytes ("script")) [] false)).bodyInjected =
        hsExample.bodyInjected ∧
    (stepToken failParseExt none (fun s _ => s) hsExample
      (HToken.startTag (strBytes ("script")) [] false)).openUnsafe =
      (if inArray (strBytes ("script")) UnsafeElements then
        hsExample.openUnsafe ++ [strBytes ("script")]
      else hsExample.openUnsafe) :=
  claim2_unsafe_stack_silent failParseExt none (fun s _ => s) hsExample
    (HToken.startTag (strBytes ("script")) [] false) (by decide)

/-! ## Claim C4: HMAC verification -/

/-- fromHexChar inverts hexDigitLower on nibbles. -/
theorem fromHexChar_hexDigitLower (n : Nat) (h : n < 16) :
    fromHexChar (hexDigitLower n) = some n := by
  unfold hexDigitLower fromHexChar
  split_ifs <;> first | (exfalso; omega) | (congr 1; omega)

/-- hexDecode inverts hexEncode on byte sequences. -/
theorem hexDecode_hexEncode (l : List Nat) (h : ∀ b ∈ l, b < 256) :
    hexDecode (hexEncode l) = some l := by
  induction l with
  | nil => rfl
  | cons b t ih =>
    have hb : b < 256 := h b (List.mem_cons_self b t)
    have ht := ih (fun x hx => h x (List.mem_cons_of_mem _ hx))
    have h1 : b / 16 < 16 := by omega
    have h2 : b % 16 < 16 := by omega
    have he : hexEncode (b :: t) =
        hexDigitLower (b / 16) :: hexDigitLower (b % 16) :: hexEncode t := by
      simp [hexEncode]
    rw [he, hexDecode, fromHexChar_hexDigitLower _ h1,
      fromHexChar_hexDigitLower _ h2, ht]
    have hv : b / 16 * 16 + b % 16 = b := by omega
    simp [hv]

/-- Claim C4: verifyRequestURI returns true exactly when the hash message
hex-decodes without error to HMAC-SHA256(key, uri) (any decode error or
length mismatch yields false), and verifying a hash produced by the
signing function hash on the same bytes and key always succeeds. -/
theorem claim4_verify_hash (ext : Ext) (uri hashMsg key : List Nat) :
    (verifyRequestURI ext uri hashMsg key = true ↔
      hexDecode hashMsg = some (ext.hmacSha256 key uri)) ∧
    ((∀ b ∈ ext.hmacSha256 key uri, b < 256) →
      verifyRequestURI ext uri (hash ext uri key) key = true) := by
  constructor
  · unfold verifyRequestURI
    cases hd : hexDecode hashMsg with
    | none => simp
    | some h' => simp [beq_iff_eq]
  · intro hb
    unfold verifyRequestURI hash
    rw [hexDecode_hexEncode _ hb]
    simp

/-- Witness for C4: with a concrete four-byte MAC, a hash produced by the
signing function verifies, and an invalid hex message is rejected. -/
theorem claim4_verify_hash_witness :
    verifyRequestURI hmacExt (strBytes ("http://x.com/"))
      (hash hmacExt (strBytes ("http://x.com/")) (strBytes ("k")))
      (strBytes ("k")) = true ∧
    (verifyRequestURI hmacExt (strBytes ("http://x.com/")) (strBytes ("zz"))
      (strBytes ("k")) = true ↔
      hexDecode (strBytes ("zz")) =
        some (hmacExt.hmacSha256 (strBytes ("k")) (strBytes ("http://x.com/")))) :=
  ⟨(claim4_verify_hash hmacExt (strBytes ("http://x.com/")) []
      (strBytes ("k"))).2 (by decide),
   (claim4_verify_hash hmacExt (strBytes ("http://x.com/")) (strBytes ("zz"))
      (strBytes ("k"))).1⟩

/-! ## Claim C5: the redirect recursion is bounded -/

/-- The follow counter of ProcessUriGas never exceeds the gas. -/
theorem ProcessUriGas_count_le (env : PEnv) (gas : Nat) :
    ∀ uri rc, (ProcessUriGas env gas uri rc).2 ≤ gas := by
  induction gas with
  | zero =>
    intro uri rc
    rw [ProcessUriGas]
    dsimp only
    repeat' split
    all_goals exact Nat.zero_le _
  | succ g ih =>
    intro uri rc
    rw [ProcessUriGas]
    dsimp only
    repeat' split
    all_goals first
      | exact Nat.zero_le _
      | exact Nat.succ_le_succ (ih _ _)

/-- Claim C5: ProcessUri follows at most MaxRedirectCount - redirectCount
further redirects, and once redirectCount has reached the bound a
redirect response that would otherwise be followed (GET method,
follow-redirect enabled, redirect status with a Location) is answered
with the status 310 landing page instead of a recursive call. -/
theorem claim5_redirect_bound (env : PEnv) (uri : List Nat) (rc : Nat)
    (parsed : GoURL) (status : Nat) (loc : List Nat) :
    (ProcessUri env uri rc).2 ≤ MaxRedirectCount - rc ∧
    (MaxRedirectCount ≤ rc →
      env.ext.urlParse uri = some parsed →
      (parsed.scheme = strBytes ("http") ∨ parsed.scheme = strBytes ("https")) →
      (strBytes (".onion")).isSuffixOf parsed.host = false →
      env.fetch uri = FetchResult.ok status (some loc) →
      (status = 301 ∨ status = 302 ∨ status = 303 ∨ status = 307 ∨ status = 308) →
      env.followRedirect = true → env.isGet = true →
      ProcessUri env uri rc = (PResult.mainPage 310, 0)) := by
  constructor
  · exact ProcessUriGas_count_le env _ uri rc
  · intro hrc hparse hsc honion hfetch hst hf hg
    have h200 : status ≠ 200 := by rcases hst with h | h | h | h | h <;> omega
    have hschemeB : (parsed.scheme == ([] : List Nat)) = false := by
      rcases hsc with h | h <;> rw [h] <;> decide
    have h5 : ¬ rc < MaxRedirectCount := by
      unfold MaxRedirectCount at hrc ⊢
      omega
    rw [ProcessUri, ProcessUriGas, hparse]
    simp [hschemeB, hfetch, hf, hg, h200, hst, h5]
    constructor
    · intro h1
      rcases hsc with h | h
      · exact absurd h h1
      · exact h
    · intro hsuf
      exact absurd (List.isSuffixOf_iff_suffix.mpr hsuf) (by simp [honion])

/-- Witness for C5: at redirectCount 5 the always-redirecting environment
is answered with the 310 landing page, and a fresh request follows at
most MaxRedirectCount redirects. -/
theorem claim5_redirect_bound_witness :
    ProcessUri redirectEnv (strBytes ("http://a/")) 5 = (PResult.mainPage 310, 0) ∧
    (ProcessUri redirectEnv (strBytes ("http://a/")) 0).2 ≤ MaxRedirectCount - 0 :=
  ⟨(claim5_redirect_bound redirectEnv (strBytes ("http://a/")) 5 baseExample
      302 (strBytes ("http://l/"))).2 (by decide) rfl (Or.inl rfl) (by decide)
      rfl (Or.inr (Or.inl rfl)) rfl rfl,
   (claim5_redirect_bound redirectEnv (strBytes ("http://a/")) 0 baseExample
      302 (strBytes ("http://l/"))).1⟩

/-! ## Claim C7: ContentType.Equals (corrected) -/

/-- In a list with nodup keys, two members with equal keys are equal. -/
theorem key_unique {l : List (String × String)}
    (h : (l.map Prod.fst).Nodup) {p q : String × String}
    (hp : p ∈ l) (hq : q ∈ l) (hfst : p.1 = q.1) : p = q := by
  induction l with
  | nil => cases hp
  | cons a t ih =>
    rw [List.map_cons, List.nodup_cons] at h
    rcases List.mem_cons.mp hp with hp1 | hp1 <;>
      rcases List.mem_cons.mp hq with hq1 | hq1
    · rw [hp1, hq1]
    · exfalso
      have hmem : q.1 ∈ t.map Prod.fst := List.mem_map_of_mem Prod.fst hq1
      rw [hp1] at hfst
      rw [← hfst] at hmem
      exact h.1 hmem
    · exfalso
      have hmem : p.1 ∈ t.map Prod.fst := List.mem_map_of_mem Prod.fst hp1
      rw [hq1] at hfst
      rw [hfst] at hmem
      exact h.1 hmem
    · exact ih h.2 hp1 hq1

/-- Go map reading through find?: a found entry gives its value. -/
theorem lookupGo_eq_of_find? {m : List (String × String)} {k : String}
    {p : String × String} (hf : m.find? (fun q => q.1 == k) = some p) :
    lookupGo m k = p.2 := by
  unfold lookupGo
  rw [hf]

/-- Go map reading through find?: an absent key gives the zero value. -/
theorem lookupGo_eq_of_find?_none {m : List (String × String)} {k : String}
    (hf : m.find? (fun q => q.1 == k) = none) : lookupGo m k = "" := by
  unfold lookupGo
  rw [hf]

/-- With nodup keys, find? on a member key returns that member. -/
theorem find?_key_of_mem {l : List (String × String)}
    (h : (l.map Prod.fst).Nodup) {kv : String × String} (hm : kv ∈ l) :
    l.find? (fun p => p.1 == kv.1) = some kv := by
  cases hf : l.find? (fun p => p.1 == kv.1) with
  | none =>
    exfalso
    have := List.find?_eq_none.mp hf kv hm
    simp at this
  | some p =>
    have h1 := List.find?_some hf
    simp only [beq_iff_eq] at h1
    have h2 : p ∈ l := List.mem_of_find?_eq_some hf
    rw [key_unique h h2 hm h1]

/-- Counterexample to C7: two ContentType values with equal name fields
but different parameter key sets (the receiver maps a to the empty
string, the other maps b to x) on which Equals returns true, because the
Go map read of the missing key a yields the zero value "". -/
theorem claim7_counterexample :
    ContentType.Equals ctA ctB = true ∧
    ctA.Parameters.map Prod.fst ≠ ctB.Parameters.map Prod.fst ∧
    List.find? (fun p => p.1 == "a") ctB.Parameters = none := by
  refine ⟨?_, ?_, ?_⟩ <;> decide

/-- Amended C7: provided no parameter value of the receiver is the empty
string (and parameter keys are unique, as they are in a Go map), Equals
returns true exactly when the three name fields are equal and the
parameter maps hold the same key/value pairs.  Without the empty-value
proviso, Equals can return true although the key sets differ, since Go
map indexing of a missing key yields "". -/
theorem claim7_amended (a b : ContentType)
    (ha : (a.Parameters.map Prod.fst).Nodup)
    (hb : (b.Parameters.map Prod.fst).Nodup)
    (hv : ∀ kv ∈ a.Parameters, kv.2 ≠ "") :
    (ContentType.Equals a b = true ↔
      (a.TopLevelType = b.TopLevelType ∧ a.SubType = b.SubType ∧
        a.Suffix = b.Suffix ∧ a.Parameters.Perm b.Parameters)) := by
  constructor
  · intro h
    unfold ContentType.Equals at h
    split at h
    · exact absurd h (by simp)
    next hcond =>
      push_neg at hcond
      obtain ⟨h1, h2, h3, h4⟩ := hcond
      refine ⟨h1, h2, h3, ?_⟩
      rw [List.all_eq_true] at h
      have hsub : a.Parameters ⊆ b.Parameters := by
        intro kv hkv
        have hlk : lookupGo b.Parameters kv.1 = kv.2 := by
          simpa using h kv hkv
        cases hf : b.Parameters.find? (fun p => p.1 == kv.1) with
        | none =>
          rw [lookupGo_eq_of_find?_none hf] at hlk
          exact absurd hlk.symm (hv kv hkv)
        | some p =>
          rw [lookupGo_eq_of_find? hf] at hlk
          have hp1 := List.find?_some hf
          simp only [beq_iff_eq] at hp1
          have hpm : p ∈ b.Parameters := List.mem_of_find?_eq_some hf
          have hpq : p = kv := Prod.ext hp1 hlk
          rwa [hpq] at hpm
      have hndp : a.Parameters.Nodup := List.Nodup.of_map _ ha
      obtain ⟨l', hperm', hsubl⟩ := List.subperm_of_subset hndp hsub
      have hlen : l'.length = b.Parameters.length := by
        rw [hperm'.length_eq, h4]
      rw [hsubl.eq_of_length hlen] at hperm'
      exact hperm'.symm
  · rintro ⟨h1, h2, h3, hperm⟩
    unfold ContentType.Equals
    rw [if_neg]
    · rw [List.all_eq_true]
      intro kv hkv
      have hmb : kv ∈ b.Parameters := hperm.mem_iff.mp hkv
      rw [lookupGo_eq_of_find? (find?_key_of_mem hb hmb)]
      exact beq_self_eq_true _
    · push_neg
      exact ⟨h1, h2, h3, hperm.length_eq⟩

/-- Witness for the amended C7 at a concrete ContentType with a non-empty
parameter value. -/
theorem claim7_amended_witness :
    ((ctW.Parameters.map Prod.fst).Nodup ∧ ∀ kv ∈ ctW.Parameters, kv.2 ≠ "") ∧
    (ContentType.Equals ctW ctW = true ↔
      (ctW.TopLevelType = ctW.TopLevelType ∧ ctW.SubType = ctW.SubType ∧
        ctW.Suffix = ctW.Suffix ∧ ctW.Parameters.Perm ctW.Parameters)) :=
  ⟨⟨by decide, by decide⟩,
   claim7_amended ctW ctW (by decide) (by decide) (by decide)⟩

/-! ## Claim C8: sanitizeURI is idempotent on its own output -/

theorem lowerByte_gt (c : Nat) (h : 32 < c) : 32 < lowerByte c := by
  unfold lowerByte
  split <;> omega

theorem lowerByte_idem (c : Nat) : lowerByte (lowerByte c) = lowerByte c := by
  unfold lowerByte
  split_ifs <;> omega

/-- A byte whose lower-casing is the colon is the colon itself. -/
theorem lowerByte_eq_58 (c : Nat) (h : lowerByte c = 58) : c = 58 := by
  unfold lowerByte at h
  split at h <;> omega

/-- Skipped bytes advance the index without touching the state. -/
theorem scanLoop_skip (p : List Nat) :
    ∀ rest i st, (∀ c ∈ p, c ≤ 32) →
      scanLoop (p ++ rest) i st = scanLoop rest (i + p.length) st := by
  induction p with
  | nil => intro rest i st _; simp
  | cons c t ih =>
    intro rest i st h
    have hc : c ≤ 32 := h c (List.mem_cons_self c t)
    rw [List.cons_append, scanLoop, if_pos hc,
      ih rest (i + 1) st (fun x hx => h x (List.mem_cons_of_mem _ hx))]
    have : i + 1 + t.length = i + (c :: t).length := by
      simp
      omega
    rw [this]

/-- Once the first kept byte has been seen, the flag stays and the
recorded index is never rewritten. -/
theorem scanLoop_seen (l : List Nat) :
    ∀ i st, st.firstRuneSeen = true →
      (scanLoop l i st).firstRuneSeen = true ∧
      (scanLoop l i st).firstRuneIndex = st.firstRuneIndex := by
  induction l with
  | nil => intro i st h; exact ⟨h, rfl⟩
  | cons c t ih =>
    intro i st h
    rw [scanLoop]
    dsimp only
    by_cases hc : c ≤ 32
    · rw [if_pos hc]
      exact ih (i + 1) st h
    · rw [if_neg hc]
      by_cases h58 : lowerByte c = 58
      · rw [if_pos h58]
        simp [h]
      · rw [if_neg h58]
        by_cases hbr : lowerByte c = 47 ∨ lowerByte c = 63 ∨
            lowerByte c = 92 ∨ lowerByte c = 35
        · rw [if_pos hbr]
          simp [h]
        · rw [if_neg hbr]
          have hrec := ih (i + 1)
            ⟨st.buffer ++ [lowerByte c],
             if st.firstRuneSeen then st.firstRuneIndex else i, true,
             st.schemeLastIndex⟩ rfl
          refine ⟨hrec.1, ?_⟩
          rw [hrec.2]
          simp [h]

/-- If the flag never rises, every byte was skipped and nothing changed. -/
theorem scanLoop_not_seen (l : List Nat) :
    ∀ i st, st.firstRuneSeen = false →
      (scanLoop l i st).firstRuneSeen = false →
      (∀ c ∈ l, c ≤ 32) ∧ scanLoop l i st = st := by
  induction l with
  | nil =>
    intro i st _ _
    exact ⟨by simp, rfl⟩
  | cons c t ih =>
    intro i st h hr
    rw [scanLoop] at hr ⊢
    dsimp only at hr ⊢
    by_cases hc : c ≤ 32
    · rw [if_pos hc] at hr ⊢
      obtain ⟨h1, h2⟩ := ih (i + 1) st h hr
      refine ⟨fun x hx => ?_, h2⟩
      rcases List.mem_cons.mp hx with rfl | hx
      · exact hc
      · exact h1 x hx
    · exfalso
      rw [if_neg hc] at hr
      by_cases h58 : lowerByte c = 58
      · rw [if_pos h58] at hr
        simp at hr
      · rw [if_neg h58] at hr
        by_cases hbr : lowerByte c = 47 ∨ lowerByte c = 63 ∨
            lowerByte c = 92 ∨ lowerByte c = 35
        · rw [if_pos hbr] at hr
          simp at hr
        · rw [if_neg hbr] at hr
          have := (scanLoop_seen t (i + 1)
            ⟨st.buffer ++ [lowerByte c],
             if st.firstRuneSeen then st.firstRuneIndex else i, true,
             st.schemeLastIndex⟩ rfl).1
          rw [this] at hr
          cases hr

/-- The scanner reports no scheme exactly when the byte stream stops
without a colon, independently of index and start state. -/
theorem scanLoop_scheme_none (l : List Nat) :
    ∀ i st, st.schemeLastIndex = none →
      ((scanLoop l i st).schemeLastIndex = none ↔ stopsNoColon l = true) := by
  induction l with
  | nil =>
    intro i st hs
    rw [scanLoop, stopsNoColon]
    simp [hs]
  | cons c t ih =>
    intro i st hs
    rw [scanLoop, stopsNoColon]
    dsimp only
    by_cases hc : c ≤ 32
    · rw [if_pos hc, if_pos hc]
      exact ih (i + 1) st hs
    · rw [if_neg hc, if_neg hc]
      by_cases h58 : lowerByte c = 58
      · rw [if_pos h58, if_pos h58]
        simp
      · rw [if_neg h58, if_neg h58]
        by_cases hbr : lowerByte c = 47 ∨ lowerByte c = 63 ∨
            lowerByte c = 92 ∨ lowerByte c = 35
        · rw [if_pos hbr, if_pos hbr]
          simp [hs]
        · rw [if_neg hbr, if_neg hbr]
          exact ih (i + 1) _ hs

/-- stopsNoColon ignores skipped bytes. -/
theorem stopsNoColon_skip (p : List Nat) :
    ∀ rest, (∀ c ∈ p, c ≤ 32) →
      stopsNoColon (p ++ rest) = stopsNoColon rest := by
  induction p with
  | nil => intro rest _; simp
  | cons c t ih =>
    intro rest h
    rw [List.cons_append, stopsNoColon,
      if_pos (h c (List.mem_cons_self c t))]
    exact ih rest (fun x hx => h x (List.mem_cons_of_mem _ hx))

/-- When a scheme is found the input splits at the colon byte, the colon
index is the reported one, and the buffer grew by a run of good bytes
followed by the colon, no longer than the prefix scanned. -/
theorem scanLoop_some (l : List Nat) :
    ∀ i st k, st.schemeLastIndex = none →
      (scanLoop l i st).schemeLastIndex = some k →
      ∃ pre post mid, l = pre ++ 58 :: post ∧ k = i + pre.length ∧
        (scanLoop l i st).buffer = st.buffer ++ (mid ++ [58]) ∧
        (∀ c ∈ mid, goodByte c) ∧ mid.length ≤ pre.length := by
  induction l with
  | nil =>
    intro i st k hs hr
    rw [scanLoop] at hr
    rw [hs] at hr
    cases hr
  | cons c t ih =>
    intro i st k hs hr
    rw [scanLoop] at hr ⊢
    dsimp only at hr ⊢
    by_cases hc : c ≤ 32
    · rw [if_pos hc] at hr ⊢
      obtain ⟨pre, post, mid, h1, h2, h3, h4, h5⟩ := ih (i + 1) st k hs hr
      refine ⟨c :: pre, post, mid, by simp [h1], ?_, h3, h4, ?_⟩
      · simp only [List.length_cons]
        omega
      · simp only [List.length_cons]
        omega
    · rw [if_neg hc] at hr ⊢
      by_cases h58 : lowerByte c = 58
      · rw [if_pos h58] at hr ⊢
        simp only [Option.some.injEq] at hr
        refine ⟨[], t, [], ?_, ?_, ?_, by simp, by simp⟩
        · rw [lowerByte_eq_58 c h58]
          rfl
        · simp [hr]
        · simp [h58]
      · rw [if_neg h58] at hr ⊢
        by_cases hbr : lowerByte c = 47 ∨ lowerByte c = 63 ∨
            lowerByte c = 92 ∨ lowerByte c = 35
        · rw [if_pos hbr] at hr
          dsimp only at hr
          rw [hs] at hr
          cases hr
        · rw [if_neg hbr] at hr ⊢
          obtain ⟨pre, post, mid, h1, h2, h3, h4, h5⟩ :=
            ih (i + 1)
              ⟨st.buffer ++ [lowerByte c],
               if st.firstRuneSeen then st.firstRuneIndex else i, true,
               st.schemeLastIndex⟩ k hs hr
          push_neg at hbr
          refine ⟨c :: pre, post, lowerByte c :: mid, by simp [h1], ?_, ?_, ?_, ?_⟩
          · simp only [List.length_cons]
            omega
          · rw [h3]
            simp
          · intro x hx
            rcases List.mem_cons.mp hx with rfl | hx
            · exact ⟨lowerByte_gt c (by omega), lowerByte_idem c,
                h58, hbr.1, hbr.2.1, hbr.2.2.1, hbr.2.2.2⟩
            · exact h4 x hx
          · simp only [List.length_cons]
            omega

/-- When no scheme is found but a byte was kept, the input splits into a
skipped prefix and a first kept byte whose index is reported. -/
theorem scanLoop_first_rune (l : List Nat) :
    ∀ i st, st.firstRuneSeen = false →
      (scanLoop l i st).firstRuneSeen = true →
      ∃ p b t, l = p ++ b :: t ∧ (∀ c ∈ p, c ≤ 32) ∧ 32 < b ∧
        (scanLoop l i st).firstRuneIndex = i + p.length := by
  induction l with
  | nil =>
    intro i st h hr
    rw [scanLoop] at hr
    rw [h] at hr
    cases hr
  | cons c t ih =>
    intro i st h hr
    rw [scanLoop] at hr ⊢
    dsimp only at hr ⊢
    by_cases hc : c ≤ 32
    · rw [if_pos hc] at hr ⊢
      obtain ⟨p, b, t', h1, h2, h3, h4⟩ := ih (i + 1) st h hr
      refine ⟨c :: p, b, t', by simp [h1], ?_, h3, ?_⟩
      · intro x hx
        rcases List.mem_cons.mp hx with rfl | hx
        · exact hc
        · exact h2 x hx
      · rw [h4]
        simp only [List.length_cons]
        omega
    · rw [if_neg hc] at hr ⊢
      refine ⟨[], c, t, rfl, by simp, by omega, ?_⟩
      by_cases h58 : lowerByte c = 58
      · rw [if_pos h58]
        simp [h]
      · rw [if_neg h58]
        by_cases hbr : lowerByte c = 47 ∨ lowerByte c = 63 ∨
            lowerByte c = 92 ∨ lowerByte c = 35
        · rw [if_pos hbr]
          simp [h]
        · rw [if_neg hbr]
          rw [(scanLoop_seen t (i + 1) _ rfl).2]
          simp [h]

/-- A scan that starts at a kept byte reports that very index. -/
theorem scanLoop_head_big (b : Nat) (t : List Nat) (i : Nat) (st : ScanSt)
    (hb : 32 < b) (h : st.firstRuneSeen = false) :
    (scanLoop (b :: t) i st).firstRuneIndex = i := by
  rw [scanLoop]
  dsimp only
  rw [if_neg (by omega : ¬ b ≤ 32)]
  by_cases h58 : lowerByte b = 58
  · rw [if_pos h58]
    simp [h]
  · rw [if_neg h58]
    by_cases hbr : lowerByte b = 47 ∨ lowerByte b = 63 ∨
        lowerByte b = 92 ∨ lowerByte b = 35
    · rw [if_pos hbr]
      simp [h]
    · rw [if_neg hbr]
      rw [(scanLoop_seen t (i + 1) _ rfl).2]
      simp [h]

/-- Scanning a run of good bytes followed by a colon keeps them verbatim
in the buffer and stops at the colon. -/
theorem scanLoop_clean (mid : List Nat) :
    ∀ post i st, st.schemeLastIndex = none → (∀ c ∈ mid, goodByte c) →
      scanLoop (mid ++ 58 :: post) i st =
        ⟨st.buffer ++ (mid ++ [58]),
         if st.firstRuneSeen then st.firstRuneIndex else i,
         true, some (i + mid.length)⟩ := by
  induction mid with
  | nil =>
    intro post i st hs _
    rw [List.nil_append, scanLoop]
    dsimp only
    rw [if_neg (by omega : ¬ (58 : Nat) ≤ 32)]
    have h58 : lowerByte 58 = 58 := by decide
    rw [h58]
    simp
  | cons m ms ih =>
    intro post i st hs hg
    obtain ⟨hm32, hmlow, hm58, hm47, hm63, hm92, hm35⟩ :=
      hg m (List.mem_cons_self m ms)
    rw [List.cons_append, scanLoop]
    dsimp only
    rw [if_neg (by omega : ¬ m ≤ 32), hmlow, if_neg hm58,
      if_neg (by tauto : ¬ (m = 47 ∨ m = 63 ∨ m = 92 ∨ m = 35)),
      ih post (i + 1)
        ⟨st.buffer ++ [m], if st.firstRuneSeen then st.firstRuneIndex else i,
         true, st.schemeLastIndex⟩ hs
        (fun x hx => hg x (List.mem_cons_of_mem _ hx))]
    simp only [ScanSt.mk.injEq]
    refine ⟨by simp, by simp, trivial, ?_⟩
    simp only [List.length_cons, Option.some.injEq]
    omega

/-- The last byte of a right-trimmed list is above 32. -/
theorem trimRight_getLast_big (l : List Nat) (x : Nat)
    (h : (trimRightSpaces l).getLast? = some x) : 32 < x := by
  unfold trimRightSpaces at h
  rw [List.getLast?_reverse] at h
  have hd : ∀ (m : List Nat), (m.dropWhile (fun c => decide (c ≤ 32))).head? =
      some x → ¬ x ≤ 32 := by
    intro m
    induction m with
    | nil => intro hm; cases hm
    | cons c t ih =>
      intro hm
      rw [List.dropWhile_cons] at hm
      by_cases hp : c ≤ 32
      · rw [if_pos (by simpa using hp)] at hm
        exact ih hm
      · rw [if_neg (by simpa using hp)] at hm
        simp only [List.head?_cons, Option.some.injEq] at hm
        rw [← hm]
        exact hp
  have := hd l.reverse h
  omega

/-- A list whose last byte is above 32 is unchanged by right trimming. -/
theorem trimRight_eq_self (l : List Nat) (x : Nat)
    (hx : l.getLast? = some x) (h32 : 32 < x) : trimRightSpaces l = l := by
  unfold trimRightSpaces
  have hh : l.reverse.head? = some x := by rw [List.head?_reverse, hx]
  cases hr : l.reverse with
  | nil =>
    rw [hr] at hh
    cases hh
  | cons a t =>
    rw [hr] at hh
    simp only [List.head?_cons, Option.some.injEq] at hh
    rw [List.dropWhile_cons, if_neg (by simp; omega)]
    rw [← hr, List.reverse_reverse]

/-- The written-back slice of sanitizeURI: copying the buffer over the
bytes before the colon and returning the tail from the scheme start is
the buffer followed by the bytes after the colon. -/
theorem sanitizeURI_written (uriT buf : List Nat) (k : Nat)
    (hlen : buf.length ≤ k + 1) (hk : k < uriT.length) :
    (uriT.take (k + 1 - buf.length) ++
        goCopy (uriT.drop (k + 1 - buf.length)) buf).drop (k + 1 - buf.length) =
      buf ++ uriT.drop (k + 1) := by
  have hlt : (uriT.take (k + 1 - buf.length)).length = k + 1 - buf.length := by
    rw [List.length_take]
    omega
  rw [List.drop_left' hlt]
  unfold goCopy
  have hlen2 : buf.length ≤ (uriT.drop (k + 1 - buf.length)).length := by
    rw [List.length_drop]
    omega
  have harg : k + 1 - buf.length + buf.length = k + 1 := by omega
  rw [List.take_of_length_le hlen2, List.drop_drop, harg]

/-- First-pass characterization when a scheme is found: the output is the
good buffer bytes, the colon, and the bytes after the colon; the scheme
is the buffer. -/
theorem sanitizeURI_scheme_out (u : List Nat) (k : Nat)
    (hk : (scanLoop (trimRightSpaces u) 0
      ⟨[], 0, false, none⟩).schemeLastIndex = some k) :
    ∃ pre post mid,
      trimRightSpaces u = pre ++ 58 :: post ∧ k = pre.length ∧
      (∀ c ∈ mid, goodByte c) ∧ mid.length ≤ pre.length ∧
      sanitizeURI u = (mid ++ 58 :: post, mid ++ [58]) := by
  obtain ⟨pre, post, mid, h1, h2, h3, h4, h5⟩ :=
    scanLoop_some (trimRightSpaces u) 0 ⟨[], 0, false, none⟩ k rfl hk
  have hk' : k = pre.length := by omega
  have hbuf : (scanLoop (trimRightSpaces u) 0
      ⟨[], 0, false, none⟩).buffer = mid ++ [58] := by
    rw [h3]
    simp
  refine ⟨pre, post, mid, h1, hk', h4, h5, ?_⟩
  unfold sanitizeURI
  dsimp only
  rw [hk]
  dsimp only
  rw [hbuf]
  have hlen : (mid ++ [58]).length ≤ k + 1 := by
    simp [hk']
    omega
  have hklt : k < (trimRightSpaces u).length := by
    rw [h1, hk']
    simp
  rw [sanitizeURI_written (trimRightSpaces u) (mid ++ [58]) k hlen hklt]
  have hdrop : (trimRightSpaces u).drop (k + 1) = post := by
    rw [h1, hk', show pre ++ 58 :: post = (pre ++ [58]) ++ post by simp,
      List.drop_left' (by simp)]
  rw [hdrop]
  simp

/-- sanitizeURI is the identity on a trimmed scheme-shaped value. -/
theorem sanitizeURI_fix_scheme (mid post : List Nat)
    (hg : ∀ c ∈ mid, goodByte c)
    (ht : trimRightSpaces (mid ++ 58 :: post) = mid ++ 58 :: post) :
    sanitizeURI (mid ++ 58 :: post) = (mid ++ 58 :: post, mid ++ [58]) := by
  unfold sanitizeURI
  dsimp only
  rw [ht, scanLoop_clean mid post 0 ⟨[], 0, false, none⟩ rfl hg]
  dsimp only
  simp only [List.nil_append, Nat.zero_add]
  rw [sanitizeURI_written (mid ++ 58 :: post) (mid ++ [58]) mid.length
    (by simp) (by simp)]
  have hdrop : (mid ++ 58 :: post).drop (mid.length + 1) = post := by
    rw [show mid ++ 58 :: post = (mid ++ [58]) ++ post by simp,
      List.drop_left' (by simp)]
  rw [hdrop]
  simp

/-- sanitizeURI is the identity on a trimmed colon-free value starting
with a kept byte, and reports no scheme. -/
theorem sanitizeURI_fix_relative (b : Nat) (t : List Nat) (hb : 32 < b)
    (ht : trimRightSpaces (b :: t) = b :: t)
    (hcol : stopsNoColon (b :: t) = true) :
    sanitizeURI (b :: t) = (b :: t, []) := by
  unfold sanitizeURI
  dsimp only
  rw [ht]
  have hsch : (scanLoop (b :: t) 0 ⟨[], 0, false, none⟩).schemeLastIndex = none :=
    (scanLoop_scheme_none (b :: t) 0 ⟨[], 0, false, none⟩ rfl).mpr hcol
  rw [hsch]
  dsimp only
  rw [scanLoop_head_big b t 0 ⟨[], 0, false, none⟩ hb rfl]
  simp

/-- Claim C8: sanitizeURI is idempotent on its own output - applying it a
second time to the cleaned bytes changes neither the cleaned bytes nor
the scheme. -/
theorem claim8_sanitizeURI_idem (u : List Nat) :
    sanitizeURI (sanitizeURI u).1 = sanitizeURI u := by
  cases hk : (scanLoop (trimRightSpaces u) 0
      ⟨[], 0, false, none⟩).schemeLastIndex with
  | some k =>
    obtain ⟨pre, post, mid, htrim, hkpre, hgood, hlen, hout⟩ :=
      sanitizeURI_scheme_out u k hk
    rw [hout]
    dsimp only
    apply sanitizeURI_fix_scheme mid post hgood
    have hx : ∀ x, (58 :: post).getLast? = some x → 32 < x := by
      cases post with
      | nil =>
        intro x hgx
        simp at hgx
        omega
      | cons p0 ps =>
        intro x hgx
        exact trimRight_getLast_big u x
          (by rw [htrim, List.getLast?_append_cons, hgx])
    cases hgx : (58 :: post).getLast? with
    | none => simp at hgx
    | some x =>
      exact trimRight_eq_self _ x
        (by rw [List.getLast?_append_cons, hgx]) (hx x hgx)
  | none =>
    by_cases hseen : (scanLoop (trimRightSpaces u) 0
        ⟨[], 0, false, none⟩).firstRuneSeen = true
    · obtain ⟨p, b, t, h1, h2, h3, h4⟩ :=
        scanLoop_first_rune (trimRightSpaces u) 0 ⟨[], 0, false, none⟩ rfl hseen
      have hout : sanitizeURI u = (b :: t, []) := by
        unfold sanitizeURI
        dsimp only
        rw [hk]
        dsimp only
        rw [h4]
        simp only [Nat.zero_add]
        rw [h1, List.drop_left' rfl]
      rw [hout]
      dsimp only
      apply sanitizeURI_fix_relative b t h3
      · have hx : ∀ x, (b :: t).getLast? = some x → 32 < x := by
          cases t with
          | nil =>
            intro x hgx
            simp at hgx
            omega
          | cons t0 ts =>
            intro x hgx
            exact trimRight_getLast_big u x
              (by rw [h1, List.getLast?_append_cons, hgx])
        cases hgx : (b :: t).getLast? with
        | none => simp at hgx
        | some x => exact trimRight_eq_self _ x hgx (hx x hgx)
      · have hstops : stopsNoColon (trimRightSpaces u) = true :=
          (scanLoop_scheme_none (trimRightSpaces u) 0
            ⟨[], 0, false, none⟩ rfl).mp hk
        rw [h1, stopsNoColon_skip p _ h2] at hstops
        exact hstops
    · have hseenF : (scanLoop (trimRightSpaces u) 0
          ⟨[], 0, false, none⟩).firstRuneSeen = false :=
        Bool.eq_false_iff.mpr hseen
      obtain ⟨hall, heq⟩ := scanLoop_not_seen (trimRightSpaces u) 0
        ⟨[], 0, false, none⟩ rfl hseenF
      have hnil : trimRightSpaces u = [] := by
        cases hu : trimRightSpaces u with
        | nil => rfl
        | cons a t =>
          exfalso
          have hglast := List.getLast?_eq_getLast (a :: t) (by simp)
          have hmem : (a :: t).getLast (by simp) ∈ a :: t := List.getLast_mem _
          have hsmall : (a :: t).getLast (by simp) ≤ 32 :=
            hall _ (by rw [hu]; exact hmem)
          have hbig : 32 < (a :: t).getLast (by simp) :=
            trimRight_getLast_big u _ (by rw [hu]; exact hglast)
          omega
      have hout : sanitizeURI u = ([], []) := by
        unfold sanitizeURI
        dsimp only
        rw [hk]
        dsimp only
        rw [hnil]
        simp
      rw [hout]
      decide

end Morty
